import Mathlib

/-!
Verification development for the bower-json manifest library
(`lib/json.js` and its earlier single-file variant).

The JavaScript source is shallowly embedded: JS exceptions become
`Except Err`, JS objects with known fields become structures with
`Option` fields (`none` models an absent / `undefined` field), and the
JS regular-expression tests are embedded through a small Brzozowski
derivative matcher over the exact patterns of the source.
-/

namespace BowerJson

/-- ValidationError: `createError(msg, code)` builds an `Error` carrying a
human-readable `message` and a machine-readable `code`; the reader later
attaches a `file` attribute (absent until set, hence `Option`). -/
structure Err where
  message : String
  code : String := ""
  file : Option String := none
deriving DecidableEq, Repr

/-- Model of `createError(msg, code)` from `util/createError`. -/
def createError (msg : String) (code : String) : Err :=
  { message := msg, code := code }

/-- The value of a `main` field: a plain string or an array of strings.
The JS code also has branches for a `main` that is neither a string nor
an array, and for array entries that are not strings; those values are
outside this model's value space (in JS they end in a thrown `TypeError`
from `forEach` or in string coercion inside the regex tests). -/
inductive MainVal where
  | str (s : String)
  | arr (xs : List String)
deriving DecidableEq, Repr

/-- Manifest: the parsed json object. `none` models an absent field. -/
structure Manifest where
  name : Option String := none
  description : Option String := none
  main : Option MainVal := none
  dependencies : Option (List (String × String)) := none
  devDependencies : Option (List (String × String)) := none
deriving DecidableEq, Repr

/-- ValidationOptions as passed by the caller: each recognized key may be
present or absent; `deepExtend` then fills in the defaults. -/
structure VOptions where
  enforceNameExists : Option Bool := none
  strictNames : Option Bool := none
deriving DecidableEq, Repr

/-- `deepExtend({enforceNameExists: true, ...}, options || {})`, projected
to the `enforceNameExists` key (default `true`). -/
def mergedEnforceNameExists (o : Option VOptions) : Bool :=
  ((o.getD {}).enforceNameExists).getD true

/-- `deepExtend({..., strictNames: true}, options || {})`, projected to the
`strictNames` key (default `true`). -/
def mergedStrictNames (o : Option VOptions) : Bool :=
  ((o.getD {}).strictNames).getD true

/-- JS truthiness of `json.name && json.name.length` for a string-or-absent
`name`: present and non-empty. -/
def nameTruthy (j : Manifest) : Bool :=
  match j.name with
  | some n => !(n == "")
  | none => false

/-- JS truthiness of `json.description && json.description.length > 140`. -/
def descriptionTooLong (j : Manifest) : Bool :=
  match j.description with
  | some d => decide (d.length > 140)
  | none => false

/-! ### Character classes of the source regexes (ASCII ranges) -/

/-- `[A-Z]`. -/
def isUpperAz (c : Char) : Bool := 'A' ≤ c && c ≤ 'Z'

/-- `[a-z]`. -/
def isLowerAz (c : Char) : Bool := 'a' ≤ c && c ≤ 'z'

/-- `[0-9]`. -/
def isDigitCh (c : Char) : Bool := '0' ≤ c && c ≤ '9'

/-- `[A-z]`: the ASCII range from `A` (65) to `z` (122), which also
contains the six punctuation characters between `Z` and `a`
(for example the underscore). -/
def inAzRange (c : Char) : Bool := 'A' ≤ c && c ≤ 'z'

/-- `[A-z0-9]`. -/
def inAz09 (c : Char) : Bool := inAzRange c || isDigitCh c

/-- `/[A-Z]/.test(s)`. -/
def hasUpperAz (s : String) : Bool := s.data.any isUpperAz

/-- `/[a-z]/.test(s)`. -/
def containsLowerAz (s : String) : Bool := s.data.any isLowerAz

/-- `/^[a-z]/.test(s)`. -/
def startsLowerAz (s : String) : Bool :=
  match s.data with
  | [] => false
  | c :: _ => isLowerAz c

/-- `/[a-z]$/.test(s)`. -/
def endsLowerAz (s : String) : Bool :=
  match s.data.getLast? with
  | none => false
  | some c => isLowerAz c

/-! ### A small regular-expression matcher (Brzozowski derivatives)

Used to embed the anchored structural-grammar pattern of the source
verbatim. For a pattern without backreferences, the JS backtracking
`test` accepts exactly the pattern's regular language, which is what the
derivative matcher decides. -/

/-- Regular expressions over characters; `cls` is a character class. -/
inductive Re where
  | emp : Re
  | eps : Re
  | cls : (Char → Bool) → Re
  | cat : Re → Re → Re
  | alt : Re → Re → Re
  | star : Re → Re

/-- Does the language of `r` contain the empty word? -/
def Re.nullable : Re → Bool
  | .emp => false
  | .eps => true
  | .cls _ => false
  | .cat a b => a.nullable && b.nullable
  | .alt a b => a.nullable || b.nullable
  | .star _ => true

/-- Brzozowski derivative of `r` by the character `c`. -/
def Re.deriv : Re → Char → Re
  | .emp, _ => .emp
  | .eps, _ => .emp
  | .cls p, c => if p c then .eps else .emp
  | .cat a b, c =>
      if a.nullable then .alt (.cat (a.deriv c) b) (b.deriv c)
      else .cat (a.deriv c) b
  | .alt a b, c => .alt (a.deriv c) (b.deriv c)
  | .star r, c => .cat (r.deriv c) (.star r)

/-- `r?`. -/
def Re.opt (r : Re) : Re := .alt .eps r

/-- Anchored match (`^...$`): the whole string is in the language of `r`. -/
def regexTest (r : Re) (s : String) : Bool :=
  (s.data.foldl Re.deriv r).nullable

/-- A single literal character as a class. -/
def chRe (c : Char) : Re := .cls (fun d => d == c)

/-- The structural name grammar of the source, verbatim:
`^[A-z]?([A-z](([A-z0-9]\-?)*([A-z0-9]\.?)*)*[A-z0-9])?$`. -/
def nameGrammarRe : Re :=
  .cat (Re.opt (.cls inAzRange))
    (Re.opt (.cat (.cls inAzRange)
      (.cat (.star (.cat (.star (.cat (.cls inAz09) (Re.opt (chRe '-'))))
                         (.star (.cat (.cls inAz09) (Re.opt (chRe '.'))))))
            (.cls inAz09))))

/-- JS regex test from the name validator: `/[^A-z0-9\.\-]*/.test(name)`.
The whole pattern is a single Kleene-starred character class and the test
is unanchored; a starred pattern matches the empty substring at position 0
of every input, so this `test` returns `true` for every string. The model
embeds that constant observable behaviour directly. -/
def invalidCharRegexTest (_name : String) : Bool := true

/-! ### Error values built by the source (messages verbatim) -/

def nameEmptyError : Err := createError "The name must not be empty" "EINVALID"

def noNameError : Err := createError "No name property set" "EINVALID"

def nameTooLongError : Err :=
  createError "The name is too long. 50 characters should be more than enough" "EINVALID"

def nameInvalidCharError : Err :=
  createError "The name contains an invalid character" "EINVALID"

def nameMalformedError (name : String) : Err :=
  createError ("The name is malformed: " ++ name) "EINVALID"

def upperCaseError : Err :=
  createError "The name contains upper case letters" "EINVALID"

def startLowerError : Err :=
  createError "The name has to start with a lower case character from a to z" "EINVALID"

def endLowerError : Err :=
  createError "The name has to end with a lower case character from a to z" "EINVALID"

/-- The message at the fourth strict check (`if (!/[a-z]/.test(name))`)
as written in the source: it repeats the end-check wording. -/
def containsLowerError : Err :=
  createError "The name has to end with a lower case character from a to z" "EINVALID"

def descriptionTooLongError : Err :=
  createError "The description is too long. 140 characters should be more than enough" "EINVALID"

def globError : Err :=
  createError "The \"main\" field cannot contain globs (example: \"*.js\")" "EINVALID"

def minifiedError : Err :=
  createError "The \"main\" field cannot contain minified files" "EINVALID"

def assetError : Err :=
  createError "The \"main\" field cannot contain font, image, audio, or video files" "EINVALID"

def traversalError : Err :=
  createError "Directory traversing in dependency paths is not allowed" "EINVALID"

/-- `findPackageNameErrors(name, strictNames)` from `lib/json.js`.
Faithful to the source: the function allocates an `errors` array and
returns it, but every violated check `throw`s (modelled by
`Except.error`), so the returned array is always empty. The
`typeof(name) !== 'string'` branch is outside this model's value space
(`name` is a string here). -/
def findPackageNameErrors (name : String) (strictNames : Bool) : Except Err (List Err) :=
  if name = "" then .error noNameError
  else if 50 ≤ name.length then .error nameTooLongError
  else if !(invalidCharRegexTest name) then .error nameInvalidCharError
  else if !(regexTest nameGrammarRe name) then .error (nameMalformedError name)
  else if strictNames then
    if hasUpperAz name then .error upperCaseError
    else if !(startsLowerAz name) then .error startLowerError
    else if !(endsLowerAz name) then .error endLowerError
    else if !(containsLowerAz name) then .error containsLowerError
    else .ok []
  else .ok []

/-- `findPackageNameErrors` with the charset check
(`if (!/[^A-z0-9\.\-]*/.test(name)) throw ...`) removed; used to state
that this check never fires. -/
def findPackageNameErrorsNoCharsetCheck (name : String) (strictNames : Bool) : Except Err (List Err) :=
  if name = "" then .error noNameError
  else if 50 ≤ name.length then .error nameTooLongError
  else if !(regexTest nameGrammarRe name) then .error (nameMalformedError name)
  else if strictNames then
    if hasUpperAz name then .error upperCaseError
    else if !(startsLowerAz name) then .error startLowerError
    else if !(endsLowerAz name) then .error endLowerError
    else if !(containsLowerAz name) then .error containsLowerError
    else .ok []
  else .ok []

/-- `findPackageNameErrors` with the fourth strict check
(`if (!/[a-z]/.test(name)) throw ...`) removed; used to state that this
check is redundant. -/
def findPackageNameErrorsNoContainsCheck (name : String) (strictNames : Bool) : Except Err (List Err) :=
  if name = "" then .error noNameError
  else if 50 ≤ name.length then .error nameTooLongError
  else if !(invalidCharRegexTest name) then .error nameInvalidCharError
  else if !(regexTest nameGrammarRe name) then .error (nameMalformedError name)
  else if strictNames then
    if hasUpperAz name then .error upperCaseError
    else if !(startsLowerAz name) then .error startLowerError
    else if !(endsLowerAz name) then .error endLowerError
    else .ok []
  else .ok []

/-! ### String helpers for the remaining JS regex tests and path functions -/

/-- Is `pat` a prefix of `l`? -/
def listStartsWith : List Char → List Char → Bool
  | [], _ => true
  | _ :: _, [] => false
  | p :: ps, c :: cs => p == c && listStartsWith ps cs

/-- Does `pat` occur as a contiguous sublist of `l`? -/
def listContainsSub (pat : List Char) : List Char → Bool
  | [] => listStartsWith pat []
  | c :: cs => listStartsWith pat (c :: cs) || listContainsSub pat cs

/-- `/\.\./.test(resource)`: the resource string contains `..`. -/
def hasDotDot (s : String) : Bool := listContainsSub ['.', '.'] s.data

/-- `/[*]/.test(filename)`. -/
def hasGlobChar (s : String) : Bool := s.data.any (fun c => c == '*')

/-- Does `/[.]min[.][^/]+$/` match starting exactly at this position and
reaching the end of the string? -/
def minMatchAt (l : List Char) : Bool :=
  listStartsWith ['.', 'm', 'i', 'n', '.'] l &&
    (let rest := l.drop 5
     !rest.isEmpty && rest.all (fun c => !(c == '/')))

/-- Scan all positions for a `minMatchAt` match. -/
def minScan : List Char → Bool
  | [] => false
  | c :: cs => minMatchAt (c :: cs) || minScan cs

/-- `/[.]min[.][^/]+$/.test(filename)`. -/
def minifiedName (s : String) : Bool := minScan s.data

/-- Node's `path.extname`: the extension (with the dot) of the last path
segment; `""` when the segment has no dot or only a leading dot. (Node's
further special cases, such as a segment that is all dots, differ from
this model only in results of length below 2, which the caller filters
out.) -/
def extnameJs (f : String) : String :=
  let base := (f.data.reverse.takeWhile (fun c => !(c == '/'))).reverse
  match base.reverse.findIdx? (fun c => c == '.') with
  | none => ""
  | some j =>
    let pos := base.length - 1 - j
    if pos = 0 then "" else String.mk (base.drop pos)

/-- `JSON.stringify` of an array of strings (as interpolated into the
multiple-files message). -/
def jsonStringifyStrings (l : List String) : String :=
  "[" ++ String.intercalate "," (l.map (fun f => "\"" ++ f ++ "\"")) ++ "]"

def multipleFilesError (ext : String) (files : List String) : Err :=
  createError ("The \"main\" field has to contain only 1 file per filetype; found multiple "
    ++ ext ++ " files: " ++ jsonStringifyStrings files) "EINVALID"

/-! ### The `main` field checks -/

/-- The scalar-to-array coercion applied to `main` before its checks. -/
def mainEntries : MainVal → List String
  | .str s => [s]
  | .arr l => l

/-- The three per-entry checks of the `forEach` body, in push order. -/
def entryErrors (isAsset : String → Bool) (f : String) : List Err :=
  (if hasGlobChar f then [globError] else []) ++
  (if minifiedName f then [minifiedError] else []) ++
  (if isAsset f then [assetError] else [])

/-- Append `f` to the group of `ext` in the accumulator, creating the
group at the end on first occurrence (JS object key insertion order). -/
def addToGroups : List (String × List String) → String → String → List (String × List String)
  | [], ext, f => [(ext, [f])]
  | (e, fs) :: rest, ext, f =>
      if e == ext then (e, fs ++ [f]) :: rest
      else (e, fs) :: addToGroups rest ext f

/-- The `ext2files` map: group the entries by `path.extname`, keeping only
extensions of length at least 2. -/
def extGroups (entries : List String) : List (String × List String) :=
  entries.foldl (fun acc f =>
    let ext := extnameJs f
    if 2 ≤ ext.length then addToGroups acc ext f else acc) []

/-- All errors pushed for the `main` field, in push order: the per-entry
errors of the `forEach`, then one error per extension group holding more
than one file. -/
def mainFieldErrors (isAsset : String → Bool) (main : Option MainVal) : List Err :=
  match main with
  | none => []
  | some mv =>
    let entries := mainEntries mv
    ((entries.map (entryErrors isAsset)).flatten) ++
    ((extGroups entries).filterMap (fun g =>
      if 1 < g.2.length then some (multipleFilesError g.1 g.2) else none))

/-! ### Dependency and manifest validators of `lib/json.js` -/

/-- The `forEach` body of `findDependencyErrors`, over the key/value pairs
in insertion order: `errors = errors.concat(findPackageNameErrors(name,
strictNames))` (which may throw), then push the traversal error when the
resource contains `..`. -/
def depPairErrors (strictNames : Bool) : List (String × String) → Except Err (List Err)
  | [] => .ok []
  | (name, resource) :: rest =>
    (findPackageNameErrors name strictNames).bind (fun es =>
      let tr : List Err := if hasDotDot resource then [traversalError] else []
      (depPairErrors strictNames rest).map (fun more => es ++ tr ++ more))

/-- `findDependencyErrors(dependencies, strictNames)`: a non-object
(absent) argument is ignored. -/
def findDependencyErrors (deps : Option (List (String × String))) (strictNames : Bool) :
    Except Err (List Err) :=
  match deps with
  | none => .ok []
  | some l => depPairErrors strictNames l

/-- The `if(json.name) errors = errors.concat(findPackageNameErrors(...))`
step of `findErrors` (a falsy, that is empty or absent, name is skipped). -/
def nameErrorsPart (json : Manifest) (strictNames : Bool) : Except Err (List Err) :=
  match json.name with
  | some n => if n == "" then .ok [] else findPackageNameErrors n strictNames
  | none => .ok []

/-- `findErrors(json, options)` from `lib/json.js`. The pure pushes are
assembled into the returned list in source push order. Note the two
final source lines call `errors.concat(findDependencyErrors(...))`
WITHOUT assigning the result, so only exceptions thrown inside
`findDependencyErrors` escape; its returned error list is discarded. -/
def findErrors (isAsset : String → Bool) (json : Manifest) (options : Option VOptions) :
    Except Err (List Err) :=
  (nameErrorsPart json (mergedStrictNames options)).bind (fun nameEs =>
    (findDependencyErrors json.dependencies (mergedStrictNames options)).bind (fun _ =>
      (findDependencyErrors json.devDependencies (mergedStrictNames options)).map (fun _ =>
        (if mergedEnforceNameExists options && !(nameTruthy json) then [nameEmptyError] else []) ++
        nameEs ++
        (if descriptionTooLong json then [descriptionTooLongError] else []) ++
        mainFieldErrors isAsset json.main)))

/-- `throwOnError(errors)`: throw the first error found, for compatibility
with the `validate()` interface. -/
def throwOnError (errors : List Err) : Except Err Unit :=
  match errors with
  | [] => .ok ()
  | e :: _ => .error e

/-- `validate(json, options)` = `throwOnError(findErrors(json, options));
return json;`. -/
def validate (isAsset : String → Bool) (json : Manifest) (options : Option VOptions) :
    Except Err Manifest :=
  (findErrors isAsset json options).bind (fun errs =>
    (throwOnError errs).map (fun _ => json))

/-- `validateDependencies(dependencies, strictNames)`. -/
def validateDependencies (deps : Option (List (String × String))) (strictNames : Bool) :
    Except Err Unit :=
  (findDependencyErrors deps strictNames).bind throwOnError

/-- `validatePackageName(name, strictNames)`: on success the source
returns the literal `true` (not the name). -/
def validatePackageName (name : String) (strictNames : Bool) : Except Err Bool :=
  (findPackageNameErrors name strictNames).bind (fun es =>
    (throwOnError es).map (fun _ => true))

/-- `normalize(json)`: coerce a scalar string `main` into a one-element
array (the in-place mutation is modelled as a record update). -/
def normalize (json : Manifest) : Manifest :=
  match json.main with
  | some (.str s) => { json with main := some (.arr [s]) }
  | _ => json

/-! ### ParseOptions and the parse pipeline -/

/-- ParseOptions: the caller's single options object also carries the
validation keys, which `validate` extracts itself. -/
structure POptions where
  normalize : Option Bool := none
  validate : Option Bool := none
  clone : Option Bool := none
  enforceNameExists : Option Bool := none
  strictNames : Option Bool := none
deriving DecidableEq, Repr

/-- The same options object viewed as ValidationOptions (the source passes
`originalOptions` through to `validate`). -/
def vOptionsOfP (o : Option POptions) : Option VOptions :=
  o.map (fun p => { enforceNameExists := p.enforceNameExists, strictNames := p.strictNames })

/-- `parse(json, originalOptions)`: merge defaults
`{normalize: false, validate: true, clone: false}`, clone (a deep copy,
the identity on immutable model values), validate, then normalize. -/
def parse (isAsset : String → Bool) (json : Manifest) (o : Option POptions) :
    Except Err Manifest :=
  let doValidate := ((o.getD {}).validate).getD true
  let doNormalize := ((o.getD {}).normalize).getD false
  if doValidate then
    (validate isAsset json (vOptionsOfP o)).bind (fun _ =>
      .ok (if doNormalize then normalize json else json))
  else .ok (if doNormalize then normalize json else json)

/-! ### The manifest locator `find` -/

/-- The process-wide default candidate list. -/
def possibleJsons : List String := ["bower.json", "component.json", ".bower.json"]

/-- `path.resolve(path.join(folder, file))`, modelled for an absolute
folder path without a trailing separator. -/
def joinResolve (folder f : String) : String := folder ++ "/" ++ f

/-- The ENOENT error of `find`. Note the source interpolates the GLOBAL
`possibleJsons` into the message, not the caller's candidate list. -/
def notFoundError (folder : String) : Err :=
  createError ("None of " ++ String.intercalate ", " possibleJsons ++ " were found in " ++ folder)
    "ENOENT"

/-- `find(folder, files, callback)` from `lib/json.js`, with the
filesystem existence check and the component(1) classifier passed in as
predicates over the resolved path. -/
def find (folder : String) (files : List String) (fsEx : String → Bool)
    (isComponentFile : String → Bool) : Except Err String :=
  match files with
  | [] => .error (notFoundError folder)
  | f :: rest =>
    let file := joinResolve folder f
    if !(fsEx file) then find folder rest fsEx isComponentFile
    else if !(f == "component.json") then .ok file
    else if isComponentFile file then find folder rest fsEx isComponentFile
    else .ok file

/-! ### The reader `read` -/

/-- Result of `fs.stat`: a directory or a plain file. -/
inductive StatKind where
  | directory : StatKind
  | plainFile : StatKind
deriving DecidableEq, Repr

/-- The filesystem and path primitives `read` depends on. -/
structure Fs where
  stat : String → Except Err StatKind
  fsEx : String → Bool
  readFile : String → Except Err String
  resolve : String → String

/-- The `fs.readFile` callback body of `read`: parse the contents as JSON
(`jsonParse` is the standard parser, `.error` modelling a `SyntaxError`),
tagging a parse failure with `EMALFORMED` and the resolved path, then run
`parse`, tagging any failure with the resolved path. -/
def readFileAndParse (fs : Fs) (isAsset : String → Bool)
    (jsonParse : String → Except Err Manifest) (file : String) (o : Option POptions) :
    Except Err (Manifest × String) :=
  (fs.readFile file).bind (fun contents =>
    match jsonParse contents with
    | .error err => .error { err with file := some (fs.resolve file), code := "EMALFORMED" }
    | .ok json =>
      match parse isAsset json o with
      | .error err => .error { err with file := some (fs.resolve file) }
      | .ok json2 => .ok (json2, file))

/-- `read(file, options, callback)`: stat the path; on a directory locate
the manifest with `find` and continue on the located file (the source
recurses into `read`, which stats the located plain file again and takes
the file branch modelled here directly); on a file, read and parse it. -/
def read (fs : Fs) (isAsset : String → Bool) (jsonParse : String → Except Err Manifest)
    (isComponentFile : String → Bool) (file : String) (o : Option POptions) :
    Except Err (Manifest × String) :=
  match fs.stat file with
  | .error e => .error e
  | .ok .directory =>
      (find file possibleJsons fs.fsEx isComponentFile).bind (fun found =>
        readFileAndParse fs isAsset jsonParse found o)
  | .ok .plainFile => readFileAndParse fs isAsset jsonParse file o

/-! ### The earlier single-file variant (src/unnamed/part_000)

The repository also ships the pre-refactor version of the module, whose
`validate` chain throws at the first violated rule directly instead of
going through `findErrors`. Only the throw-mode validators differ; they
are embedded here under `Part000`. -/

namespace Part000

/-- `validatePackageName(name, strictNames)` of part_000: identical checks
and messages, throwing directly; returns `undefined` (here `Unit`). -/
def validatePackageName (name : String) (strictNames : Bool) : Except Err Unit :=
  if name = "" then .error noNameError
  else if 50 ≤ name.length then .error nameTooLongError
  else if !(invalidCharRegexTest name) then .error nameInvalidCharError
  else if !(regexTest nameGrammarRe name) then .error (nameMalformedError name)
  else if strictNames then
    if hasUpperAz name then .error upperCaseError
    else if !(startsLowerAz name) then .error startLowerError
    else if !(endsLowerAz name) then .error endLowerError
    else if !(containsLowerAz name) then .error containsLowerError
    else .ok ()
  else .ok ()

/-- The `forEach` of part_000's `validateDependencies`: validate the key,
then throw on a resource containing `..`. -/
def depGo (strictNames : Bool) : List (String × String) → Except Err Unit
  | [] => .ok ()
  | (name, resource) :: rest =>
    (validatePackageName name strictNames).bind (fun _ =>
      if hasDotDot resource then .error traversalError else depGo strictNames rest)

/-- `validateDependencies(dependencies, strictNames)` of part_000. -/
def validateDependencies (deps : Option (List (String × String))) (strictNames : Bool) :
    Except Err Unit :=
  match deps with
  | none => .ok ()
  | some l => depGo strictNames l

/-- The `forEach` over `main` entries of part_000's `validate`: throw at
the first per-entry violation. -/
def mainGo (isAsset : String → Bool) : List String → Except Err Unit
  | [] => .ok ()
  | f :: rest =>
    if hasGlobChar f then .error globError
    else if minifiedName f then .error minifiedError
    else if isAsset f then .error assetError
    else mainGo isAsset rest

/-- The extension-group pass of part_000's `validate`: throw at the first
group with more than one file. -/
def groupsGo : List (String × List String) → Except Err Unit
  | [] => .ok ()
  | (ext, fs) :: rest =>
    if 1 < fs.length then .error (multipleFilesError ext fs) else groupsGo rest

/-- `validate(json, options)` of part_000: throw-mode; checks in source
order, returning the manifest. -/
def validate (isAsset : String → Bool) (json : Manifest) (options : Option VOptions) :
    Except Err Manifest :=
  if mergedEnforceNameExists options && !(nameTruthy json) then .error nameEmptyError
  else
    (match json.name with
     | some n => if n == "" then Except.ok () else validatePackageName n (mergedStrictNames options)
     | none => Except.ok ()).bind (fun _ =>
    (if descriptionTooLong json then Except.error descriptionTooLongError else Except.ok ()).bind (fun _ =>
    (match json.main with
     | none => Except.ok ()
     | some mv => (mainGo isAsset (mainEntries mv)).bind (fun _ =>
         groupsGo (extGroups (mainEntries mv)))).bind (fun _ =>
    (validateDependencies json.dependencies (mergedStrictNames options)).bind (fun _ =>
    (validateDependencies json.devDependencies (mergedStrictNames options)).map (fun _ => json)))))

end Part000

/-! ### Small helpers used only to state claims -/

/-- Is an `Except` value a normal return? -/
def exceptIsOk : Except ε α → Bool
  | .ok _ => true
  | .error _ => false

/-- The charset `[A-Za-z0-9.-]` in the words of the specification (used to
state the invalid-character claim). -/
def claimNameCharset (c : Char) : Bool :=
  isUpperAz c || isLowerAz c || isDigitCh c || c == '.' || c == '-'

/-- The conjunction of conditions the SOURCE's strict-mode name validator
enforces: the source's structural grammar (`nameGrammarRe`, whose letter
classes are the ASCII range `[A-z]` and hence also accept the six
punctuation characters between `Z` and `a`, such as `_`) plus no
uppercase letter, starting and ending with a lowercase a-z letter. This
is strictly weaker than the specification's section 4.1 grammar
(`specStrictGrammarOk` below), whose letter classes are `[A-Za-z]`. -/
def sourceStrictNameOk (n : String) : Bool :=
  regexTest nameGrammarRe n && !(hasUpperAz n) && startsLowerAz n && endsLowerAz n

/-- `[A-Za-z]`: a genuine ASCII letter. -/
def letterAz (c : Char) : Bool := isUpperAz c || isLowerAz c

/-- `[A-Za-z0-9]`. -/
def letterOrDigit (c : Char) : Bool := letterAz c || isDigitCh c

/-- Modelled from the spec: the formal structural grammar of section 4.1,
`^[A-Za-z]?([A-Za-z](([A-Za-z0-9]-?)*([A-Za-z0-9]\.?)*)*[A-Za-z0-9])?$`
— the same shape as the source's pattern but with the letter classes
`[A-Za-z]` of the spec's words instead of the source's ASCII range
`[A-z]`. Used only to compare the claim's grammar with the source's. -/
def specGrammarRe : Re :=
  .cat (Re.opt (.cls letterAz))
    (Re.opt (.cat (.cls letterAz)
      (.cat (.star (.cat (.star (.cat (.cls letterOrDigit) (Re.opt (chRe '-'))))
                         (.star (.cat (.cls letterOrDigit) (Re.opt (chRe '.'))))))
            (.cls letterOrDigit))))

/-- Modelled from the spec: the strict package-name grammar of section
4.1 as the claim words it — the section 4.1 structural grammar plus no
uppercase letter, starting and ending with a lowercase a-z letter. -/
def specStrictGrammarOk (n : String) : Bool :=
  regexTest specGrammarRe n && !(hasUpperAz n) && startsLowerAz n && endsLowerAz n

/-- The selection rule of the locator, in the words of the specification:
a candidate is acceptable when it exists and is not a `component.json`
classified as a legacy component file. -/
def acceptableCandidate (folder : String) (fsEx isComponentFile : String → Bool)
    (f : String) : Bool :=
  fsEx (joinResolve folder f) &&
    (!(f == "component.json") || !(isComponentFile (joinResolve folder f)))

/-- Concrete manifest used by witnesses: a valid strict-mode manifest with
one dependency and one devDependency. -/
def witnessManifest : Manifest :=
  { name := some "ab"
    dependencies := some [("cd", "1.0.0")]
    devDependencies := some [("ef", "2.0")] }

/-- Concrete filesystem used by the reader witness. -/
def witnessFs : Fs :=
  { stat := fun _ => .ok StatKind.plainFile
    fsEx := fun _ => false
    readFile := fun _ => .ok "oops"
    resolve := fun p => "/abs/" ++ p }

/-- Concrete JSON parser used by the reader witness: every input is a
syntax error. -/
def witnessJsonParse : String → Except Err Manifest :=
  fun _ => .error { message := "Unexpected token o" }

/-! ## Helper lemmas -/

@[simp]
theorem okBind (a : α) (f : α → Except ε β) : (Except.ok a : Except ε α).bind f = f a := rfl

@[simp]
theorem errorBind (e : ε) (f : α → Except ε β) :
    (Except.error e : Except ε α).bind f = .error e := rfl

@[simp]
theorem okMap (a : α) (f : α → β) : (Except.ok a : Except ε α).map f = .ok (f a) := rfl

@[simp]
theorem errorMap (e : ε) (f : α → β) : (Except.error e : Except ε α).map f = .error e := rfl

theorem exceptIsOk_iff (x : Except ε α) : exceptIsOk x = true ↔ ∃ a, x = .ok a := by
  cases x <;> simp [exceptIsOk]

/-- A string starting with a lowercase a-z letter contains one. -/
theorem startsLower_contains (s : String) (h : startsLowerAz s = true) :
    containsLowerAz s = true := by
  unfold startsLowerAz at h
  unfold containsLowerAz
  cases hd : s.data with
  | nil => rw [hd] at h; exact Bool.noConfusion h
  | cons c cs =>
    rw [hd] at h
    simp only [List.any_cons, Bool.or_eq_true]
    exact Or.inl h

/-- A success of the name validator in strict mode means the name passed
the structural grammar and the three strict casing conditions. -/
theorem findPackageNameErrors_ok_strict (n : String) (l : List Err)
    (h : findPackageNameErrors n true = .ok l) : sourceStrictNameOk n = true := by
  unfold findPackageNameErrors at h
  split_ifs at h with h1 h2 h3 h4 h5 h6 h7 h8 <;> simp_all [sourceStrictNameOk]

/-- A normal return of the dependency `forEach` means the name validator
returned normally on every key. -/
theorem depPairErrors_ok (b : Bool) (l : List (String × String)) (es : List Err)
    (h : depPairErrors b l = .ok es) :
    ∀ p ∈ l, exceptIsOk (findPackageNameErrors p.1 b) = true := by
  induction l generalizing es with
  | nil => intro p hp; cases hp
  | cons kv rest ih =>
    obtain ⟨k, v⟩ := kv
    unfold depPairErrors at h
    cases hk : findPackageNameErrors k b with
    | error e => rw [hk] at h; exact Except.noConfusion h
    | ok es1 =>
      rw [hk] at h
      simp only [okBind] at h
      cases hrest : depPairErrors b rest with
      | error e => rw [hrest] at h; exact Except.noConfusion h
      | ok more =>
        intro p hp
        cases hp with
        | head => simp [hk, exceptIsOk]
        | tail _ hp => exact ih more hrest p hp

/-! ## Claim theorems -/

/-- Claim C1, counterexample. On the manifest `{name: "9"}` with default
options, `validate` throws, yet `findErrors` does not return a non-empty
sequence containing that error: `findErrors` itself throws the malformed
error (its name checks throw instead of pushing), so the claimed
equivalence "validate throws iff findErrors returns a non-empty sequence
whose first element is the thrown error" fails at this input. -/
theorem validate_findErrors_iff_fails :
    validate (fun _ => false) { name := some "9" } none = .error (nameMalformedError "9") ∧
    findErrors (fun _ => false) { name := some "9" } none = .error (nameMalformedError "9") ∧
    exceptIsOk (findErrors (fun _ => false) { name := some "9" } none) = false :=
  ⟨rfl, rfl, rfl⟩

/-- Claim C1, amended: `validate(json, options)` is literally
`throwOnError(findErrors(json, options)); return json`. When `findErrors`
returns a sequence, `validate` throws iff that sequence is non-empty, and
it throws exactly its first element; but when `findErrors` itself throws
(as it does on every package-name violation), `validate` propagates that
same thrown error, which `findErrors` never returned as a sequence. -/
theorem validate_throwOnError_findErrors (isAsset : String → Bool) (j : Manifest)
    (o : Option VOptions) :
    (∀ e, findErrors isAsset j o = .error e → validate isAsset j o = .error e) ∧
    (findErrors isAsset j o = .ok [] → validate isAsset j o = .ok j) ∧
    (∀ e rest, findErrors isAsset j o = .ok (e :: rest) → validate isAsset j o = .error e) := by
  refine ⟨?_, ?_, ?_⟩
  · intro e h; simp [validate, h]
  · intro h; simp [validate, h, throwOnError]
  · intro e rest h; simp [validate, h, throwOnError]

/-- Claim C1, witness for the amended theorem: on the empty manifest,
`findErrors` returns the one-element sequence `[nameEmptyError]` and
`validate` throws its first element. -/
theorem validate_throwOnError_findErrors_witness :
    validate (fun _ => false) {} none = .error nameEmptyError :=
  (validate_throwOnError_findErrors (fun _ => false) {} none).2.2 nameEmptyError [] rfl

/-- Claim C2, counterexample. The name `"a_b"` is non-empty, shorter than
50 characters, and contains `_`, a character outside the charset
`[A-Za-z0-9.-]`; the claim says the validator must fail with "The name
contains an invalid character", but the validator succeeds outright
(the underscore lies inside the source's ASCII range `[A-z]`, and the
invalid-character test is a constant-true starred pattern). -/
theorem invalid_char_rule_counterexample :
    findPackageNameErrors "a_b" true = .ok [] ∧
    "a_b".data.all claimNameCharset = false ∧
    ("a_b".length < 50 ∧ "a_b" ≠ "") :=
  ⟨rfl, by decide, by decide, by decide⟩

/-- Claim C2, amended: the invalid-character rule never fires on any name.
Its regex `/[^A-z0-9\.\-]*/` matches every string (a starred pattern
matches the empty substring), so removing the whole check leaves the
validator's behaviour unchanged on every input; in particular the rule
also never fires on names made only of the charset `[A-Za-z0-9.-]`.
Names with characters outside that charset are either accepted (when the
characters lie in the ASCII range `[A-z]`, like `_`) or rejected by the
later structural-grammar rule with its "malformed" message. -/
theorem invalid_char_rule_never_fires (name : String) (strictNames : Bool) :
    findPackageNameErrors name strictNames = findPackageNameErrorsNoCharsetCheck name strictNames := by
  simp [findPackageNameErrors, findPackageNameErrorsNoCharsetCheck, invalidCharRegexTest]

/-- Claim C3 (code bug). On the dependency mapping `{ab: "../x"}` the
Dependency Validator `validateDependencies` fails with the EINVALID
traversal error under both strict settings — but `validate` on the
otherwise-valid manifest `{name: "ab", dependencies: {ab: "../x"}}`
succeeds, because `findErrors` calls `errors.concat(findDependencyErrors(...))`
without assigning the result (the returned error list is discarded, in
contrast with the assignment used for the name errors a few lines
earlier). The repository's earlier variant of the same function
(part_000's `validate`) throws the traversal error on the same input. -/
theorem dependency_traversal_divergence :
    validateDependencies (some [("ab", "../x")]) true = .error traversalError ∧
    validateDependencies (some [("ab", "../x")]) false = .error traversalError ∧
    validate (fun _ => false) { name := some "ab", dependencies := some [("ab", "../x")] } none
      = .ok { name := some "ab", dependencies := some [("ab", "../x")] } ∧
    Part000.validate (fun _ => false)
        { name := some "ab", dependencies := some [("ab", "../x")] } none
      = .error traversalError :=
  ⟨rfl, rfl, rfl, rfl⟩

/-- Claim C4, counterexample. With a caller-supplied candidate list
`["x.json"]` over a directory with no files, `find` fails with ENOENT,
but the error message names the three DEFAULT candidate filenames, not
the attempted one: `"x.json"` does not occur in the message. -/
theorem find_custom_list_error_message :
    find "d" ["x.json"] (fun _ => false) (fun _ => false) = .error (notFoundError "d") ∧
    (notFoundError "d").message = "None of bower.json, component.json, .bower.json were found in d" ∧
    listContainsSub "x.json".data (notFoundError "d").message.data = false :=
  ⟨rfl, rfl, by decide⟩

/-- Claim C4, amended: for every directory state and classifier, `find`
returns the resolved path of the first candidate (in list order, so with
the default list in the priority order bower.json, component.json,
.bower.json) that exists and is not a `component.json` classified as a
legacy component file; a legacy-classified `component.json` is skipped
and the search continues; and when the candidate list is exhausted, it
fails with ENOENT naming the DEFAULT candidate filenames — also when the
caller supplied a custom candidate list. -/
theorem find_characterization (folder : String) (fsEx isComponentFile : String → Bool)
    (files : List String) :
    find folder files fsEx isComponentFile =
      match files.find? (acceptableCandidate folder fsEx isComponentFile) with
      | some f => .ok (joinResolve folder f)
      | none => .error (notFoundError folder) := by
  induction files with
  | nil => rfl
  | cons f rest ih =>
    by_cases he : fsEx (joinResolve folder f)
    · by_cases hcj : (f == "component.json") = true
      · by_cases hic : isComponentFile (joinResolve folder f)
        · simp [find, List.find?, acceptableCandidate, he, hcj, hic, ih]
        · simp [find, List.find?, acceptableCandidate, he, hcj, hic]
      · simp [find, List.find?, acceptableCandidate, he, hcj]
    · simp [find, List.find?, acceptableCandidate, he, ih]

/-- Claim C5, counterexample. The claim says the Name Validator in
non-strict mode "succeeds and returns s"; in the source,
`validatePackageName` returns the literal `true` on success, never the
name: two distinct names produce the identical result. -/
theorem validatePackageName_constant_success_value :
    validatePackageName "Ab" false = .ok true ∧
    validatePackageName "Cd" false = .ok true ∧
    ("Ab" : String) ≠ "Cd" :=
  ⟨rfl, rfl, by decide⟩

/-- Claim C5, amended: for every name containing an uppercase letter that
otherwise passes the non-strict checks (non-empty, length below 50,
structural grammar), strict mode fails with "The name contains upper case
letters" while non-strict mode succeeds — returning the constant `true`
rather than the name. -/
theorem uppercase_strict_vs_nonstrict (s : String) (h0 : s ≠ "") (h1 : s.length < 50)
    (h2 : regexTest nameGrammarRe s = true) (h3 : hasUpperAz s = true) :
    validatePackageName s true = .error upperCaseError ∧
    validatePackageName s false = .ok true := by
  have hlen : ¬(50 ≤ s.length) := by omega
  constructor
  · simp [validatePackageName, findPackageNameErrors, h0, hlen, invalidCharRegexTest, h2, h3]
  · simp [validatePackageName, findPackageNameErrors, h0, hlen, invalidCharRegexTest, h2,
      throwOnError]

/-- Claim C5, witness: the name `"Ab"` (uppercase, passing the non-strict
checks) is rejected in strict mode and accepted in non-strict mode. -/
theorem uppercase_strict_vs_nonstrict_witness :
    validatePackageName "Ab" true = .error upperCaseError ∧
    validatePackageName "Ab" false = .ok true :=
  uppercase_strict_vs_nonstrict "Ab" (by decide) (by decide) (by decide) (by decide)

/-- Claim C6, counterexample. The manifest
`{name: "a_b", dependencies: {a_b: "1.0"}}` passes `validate` with the
default strict options, yet its name (which is also its one dependency
key) fails the strict package-name grammar of the specification's
section 4.1: `_` is not an `[A-Za-z]` letter, so the section 4.1
structural grammar rejects `"a_b"` while the source's `[A-z]`-range
grammar accepts it. The claimed invariant is therefore false of the
program at this input. -/
theorem spec_strict_invariant_fails :
    validate (fun _ => false) { name := some "a_b", dependencies := some [("a_b", "1.0")] } none
      = .ok { name := some "a_b", dependencies := some [("a_b", "1.0")] } ∧
    specStrictGrammarOk "a_b" = false ∧
    regexTest specGrammarRe "a_b" = false ∧
    sourceStrictNameOk "a_b" = true :=
  ⟨rfl, by decide, by decide, by decide⟩

/-- Claim C6, amended: a manifest accepted by `validate` with
`strictNames = true` under the default `enforceNameExists = true` has a
present name satisfying the conditions the source actually enforces —
the source's structural grammar, whose letter classes are the ASCII
range `[A-z]` (strictly weaker than the section 4.1 grammar, see the
counterexample), plus no uppercase letter, starting and ending with a
lowercase a-z letter — and every key of `dependencies` and
`devDependencies` satisfies them as well (the dependency key checks
throw out of `findErrors` even though the collected dependency errors
are discarded). -/
theorem validate_strict_invariant (isAsset : String → Bool) (j : Manifest)
    (o : Option VOptions) (j2 : Manifest)
    (hok : validate isAsset j o = .ok j2)
    (hstrict : mergedStrictNames o = true)
    (henforce : mergedEnforceNameExists o = true) :
    (∃ n, j.name = some n ∧ sourceStrictNameOk n = true) ∧
    (∀ p ∈ j.dependencies.getD [], sourceStrictNameOk p.1 = true) ∧
    (∀ p ∈ j.devDependencies.getD [], sourceStrictNameOk p.1 = true) := by
  cases hfe : findErrors isAsset j o with
  | error e => rw [validate] at hok; rw [hfe] at hok; exact Except.noConfusion hok
  | ok errs =>
    rw [validate] at hok; rw [hfe] at hok
    cases errs with
    | cons e rest => simp [throwOnError] at hok
    | nil =>
      clear hok
      rw [findErrors] at hfe
      cases hnp : nameErrorsPart j (mergedStrictNames o) with
      | error e => rw [hnp] at hfe; exact Except.noConfusion hfe
      | ok nameEs =>
        rw [hnp] at hfe; simp only [okBind] at hfe
        cases hd1 : findDependencyErrors j.dependencies (mergedStrictNames o) with
        | error e => rw [hd1] at hfe; exact Except.noConfusion hfe
        | ok l1 =>
          rw [hd1] at hfe; simp only [okBind] at hfe
          cases hd2 : findDependencyErrors j.devDependencies (mergedStrictNames o) with
          | error e => rw [hd2] at hfe; exact Except.noConfusion hfe
          | ok l2 =>
            rw [hd2] at hfe; simp only [okMap] at hfe
            have hlist := Except.ok.inj hfe
            rw [List.append_eq_nil, List.append_eq_nil, List.append_eq_nil] at hlist
            obtain ⟨⟨⟨hEnf, _⟩, _⟩, _⟩ := hlist
            have hnt : nameTruthy j = true := by
              by_cases hnt : nameTruthy j = true
              · exact hnt
              · rw [henforce] at hEnf
                simp [Bool.not_eq_true] at hnt
                rw [hnt] at hEnf
                simp at hEnf
            refine ⟨?_, ?_, ?_⟩
            · cases hn : j.name with
              | none =>
                exfalso
                rw [nameTruthy, hn] at hnt
                exact Bool.noConfusion hnt
              | some n =>
                refine ⟨n, rfl, ?_⟩
                rw [nameTruthy, hn] at hnt
                have hne : (n == "") = false := by simpa using hnt
                rw [nameErrorsPart, hn] at hnp
                have hnp2 : (if (n == "") = true then Except.ok ([] : List Err)
                    else findPackageNameErrors n (mergedStrictNames o)) = Except.ok nameEs := hnp
                rw [hne] at hnp2
                simp only [Bool.false_eq_true, if_false] at hnp2
                rw [hstrict] at hnp2
                exact findPackageNameErrors_ok_strict n nameEs hnp2
            · cases hdl : j.dependencies with
              | none => intro p hp; simp at hp
              | some dl =>
                intro p hp
                rw [hdl] at hd1
                rw [findDependencyErrors] at hd1
                have := depPairErrors_ok (mergedStrictNames o) dl l1 hd1 p (by simpa using hp)
                rw [hstrict] at this
                obtain ⟨es, hes⟩ := (exceptIsOk_iff _).mp this
                exact findPackageNameErrors_ok_strict p.1 es hes
            · cases hdl : j.devDependencies with
              | none => intro p hp; simp at hp
              | some dl =>
                intro p hp
                rw [hdl] at hd2
                rw [findDependencyErrors] at hd2
                have := depPairErrors_ok (mergedStrictNames o) dl l2 hd2 p (by simpa using hp)
                rw [hstrict] at this
                obtain ⟨es, hes⟩ := (exceptIsOk_iff _).mp this
                exact findPackageNameErrors_ok_strict p.1 es hes

/-- Claim C6, witness for the amended theorem: the concrete manifest
`{name: "ab", dependencies: {cd: "1.0.0"}, devDependencies: {ef: "2.0"}}`
passes `validate` with default (strict) options, and the theorem yields
the source-enforced strict conditions for its name and all dependency
keys. -/
theorem validate_strict_invariant_witness :
    (∃ n, witnessManifest.name = some n ∧ sourceStrictNameOk n = true) ∧
    (∀ p ∈ witnessManifest.dependencies.getD [], sourceStrictNameOk p.1 = true) ∧
    (∀ p ∈ witnessManifest.devDependencies.getD [], sourceStrictNameOk p.1 = true) :=
  validate_strict_invariant (fun _ => false) witnessManifest none witnessManifest rfl rfl rfl

/-- Claim C7 (confirmed): for a path that stats as a plain file whose
contents do not parse as JSON, `read` fails with the parser's error
re-tagged with code EMALFORMED and a `file` attribute equal to the
resolved absolute path; and when the contents parse but the
`parse` pipeline (validation) fails, the surfaced error carries a `file`
attribute equal to the resolved absolute path. -/
theorem read_tags_resolved_path (fs : Fs) (isAsset : String → Bool)
    (jsonParse : String → Except Err Manifest) (isComponentFile : String → Bool)
    (file : String) (o : Option POptions) (contents : String)
    (hstat : fs.stat file = .ok StatKind.plainFile)
    (hread : fs.readFile file = .ok contents) :
    (∀ pe, jsonParse contents = .error pe →
        read fs isAsset jsonParse isComponentFile file o =
          .error { pe with file := some (fs.resolve file), code := "EMALFORMED" }) ∧
    (∀ jm ve, jsonParse contents = .ok jm → parse isAsset jm o = .error ve →
        read fs isAsset jsonParse isComponentFile file o =
          .error { ve with file := some (fs.resolve file) }) := by
  constructor
  · intro pe hp
    rw [read, hstat, readFileAndParse, hread]
    simp [hp]
  · intro jm ve hj hv
    rw [read, hstat, readFileAndParse, hread]
    simp [hj, hv]

/-- Claim C7, witness: a concrete filesystem whose file holds non-JSON
text; `read` fails with EMALFORMED and the resolved path. -/
theorem read_tags_resolved_path_witness :
    read witnessFs (fun _ => false) witnessJsonParse (fun _ => false) "bower.json" none =
      .error { message := "Unexpected token o", code := "EMALFORMED",
               file := some "/abs/bower.json" } :=
  (read_tags_resolved_path witnessFs (fun _ => false) witnessJsonParse (fun _ => false)
    "bower.json" none "oops" rfl rfl).1 { message := "Unexpected token o" } rfl

/-- Claim C8 (confirmed): when `main` is a plain string `f`, `normalize`
turns the manifest into the same manifest with `main` replaced by the
one-element array `[f]` (all other fields untouched — the in-place
mutation is modelled as a record update), and `normalize` is idempotent
on every manifest. -/
theorem normalize_main_and_idempotent :
    (∀ (m : Manifest) (f : String), m.main = some (MainVal.str f) →
        normalize m = { m with main := some (MainVal.arr [f]) }) ∧
    (∀ m : Manifest, normalize (normalize m) = normalize m) := by
  constructor
  · intro m f h
    rw [normalize, h]
  · intro m
    cases hm : m.main with
    | none => simp [normalize, hm]
    | some mv =>
      cases mv with
      | str s => simp [normalize, hm]
      | arr l => simp [normalize, hm]

/-- Claim C8, witness: a concrete manifest with `main: "x.js"`. -/
theorem normalize_main_and_idempotent_witness :
    normalize { name := some "ab", main := some (MainVal.str "x.js") } =
      { name := some "ab", main := some (MainVal.arr ["x.js"]) } ∧
    normalize (normalize { name := some "ab", main := some (MainVal.str "x.js") }) =
      normalize { name := some "ab", main := some (MainVal.str "x.js") } :=
  ⟨normalize_main_and_idempotent.1 { name := some "ab", main := some (MainVal.str "x.js") }
      "x.js" rfl,
   normalize_main_and_idempotent.2 { name := some "ab", main := some (MainVal.str "x.js") }⟩

/-- Claim C9, counterexample. The fourth strict check's error is
byte-for-byte identical to the third's ("The name has to end with a lower
case character from a to z"), so the four strict checks do NOT raise four
distinct messages. -/
theorem strict_messages_duplicate :
    containsLowerError = endLowerError ∧
    containsLowerError.message = "The name has to end with a lower case character from a to z" :=
  ⟨rfl, rfl⟩

/-- Claim C9, amended: strict mode applies the four checks in order —
no uppercase, starts lowercase, ends lowercase, contains lowercase — and
the first three violations raise pairwise distinct messages, but the
fourth check's message is identical to the third's (and its branch never
fires, see the redundancy theorem). -/
theorem strict_checks_messages :
    findPackageNameErrors "aBc" true = .error upperCaseError ∧
    findPackageNameErrors "_ab" true = .error startLowerError ∧
    findPackageNameErrors "ab_" true = .error endLowerError ∧
    (upperCaseError.message ≠ startLowerError.message ∧
     upperCaseError.message ≠ endLowerError.message ∧
     startLowerError.message ≠ endLowerError.message) ∧
    containsLowerError = endLowerError :=
  ⟨rfl, rfl, rfl, ⟨by decide, by decide, by decide⟩, rfl⟩

/-- Claim C10 (confirmed): the fourth strict check is unreachable in its
error branch — any name reaching it already passed the starts-with-
lowercase check, hence contains a lowercase letter — so removing the
check leaves the Name Validator's behaviour unchanged on every input. -/
theorem contains_lower_check_redundant (name : String) (strictNames : Bool) :
    findPackageNameErrors name strictNames =
      findPackageNameErrorsNoContainsCheck name strictNames := by
  unfold findPackageNameErrors findPackageNameErrorsNoContainsCheck
  split_ifs with h1 h2 h3 h4 h5 h6 h7 h8 h9 <;> try rfl
  exfalso
  have hs : startsLowerAz name = true := by simpa using h7
  have hc := startsLower_contains name hs
  rw [hc] at h9
  exact Bool.noConfusion h9

end BowerJson
